import Mathlib

/-!
DSF container header reader (`dsf.go`).

A shallow embedding of `dsf.go`: the little-endian field decoder `lsb` with its
helpers `hex` and `hex2int`, the facade `metadataDSF`, and the entry point
`ReadDSFTags`, followed by the properties established about them.

Conventions of the embedding.

* Go's `int` and `int64` are the 64-bit signed integers; their values are carried
  in `Int` (or `Nat` where the source value is unsigned) and every place where the
  source arithmetic can wrap is written with an explicit `% 2 ^ 64`.
* A `byte` is a `Fin 256`.
* A Go `string` is a Lean `String`; the strings handled by this file are ASCII, so
  a character stands for one byte.
* A Go `error` result is an `Option GoError` (`none` is `nil`).
-/

namespace Dsf

/-! ## Go standard library: `strconv` -/

/-- A Go `byte`. -/
abbrev Byte := Fin 256

/-- The digit alphabet of `strconv` (`const digits`). -/
def digits : List Char := "0123456789abcdefghijklmnopqrstuvwxyz".toList

/-- Indexing into `digits`: `digits[k]`. -/
def digitAt (k : Nat) : Char := digits.getD k '0'

/-- The power-of-two loop of `strconv.formatBits` for base 16
(`shift = 4`, `b = 16`, `m = 15`):
`for u >= b { i--; a[i] = digits[uint(u)&m]; u >>= shift }`.
The first argument bounds the number of iterations; the buffer `a` of the source
has 65 cells, and a 64-bit value leaves the loop after at most 15 rounds. -/
def formatLoop : Nat → Nat → List Char → Nat × List Char
  | 0, u, a => (u, a)
  | k + 1, u, a =>
    if u ≥ 16 then formatLoop k (u >>> 4) (digitAt (u &&& 15) :: a) else (u, a)

/-- The function `strconv.formatBits(nil, u, 16, neg, false)`: the text of the unsigned
64-bit value `u` in base 16, with a leading minus sign when `neg` is set (in which
case the source first replaces `u` by `-u`, in 64-bit arithmetic). -/
def formatBits (u : Nat) (neg : Bool) : String :=
  let u1 := if neg then (2 ^ 64 - u) % 2 ^ 64 else u
  let (u2, a) := formatLoop 64 u1 []
  let a1 := digitAt u2 :: a
  String.mk (if neg then '-' :: a1 else a1)

/-- The function `strconv.FormatInt(i, 16)` on an `int64` value `i`
(the fast path of the source applies to base 10 only):
`formatBits(nil, uint64(i), base, i < 0, false)`. -/
def FormatInt (i : Int) : String :=
  formatBits (i % 2 ^ 64).toNat (decide (i < 0))

/-- The two sentinel errors of `strconv` that a `*NumError` can wrap. -/
inductive NumError
  | ErrSyntax
  | ErrRange
  deriving DecidableEq, Repr

/-- The function `lower(c)` of `strconv`: `c | ('x' - 'X')`. -/
def lower (c : Nat) : Nat := c ||| 32

/-- The digit decoded from one input byte by the `switch` in `strconv.ParseUint`
(the underscore case belongs to base 0 and does not apply); `none` is the
`default` branch, a syntax error. -/
def digitVal (c : Char) : Option Nat :=
  if 48 ≤ c.toNat ∧ c.toNat ≤ 57 then some (c.toNat - 48)
  else if 97 ≤ lower c.toNat ∧ lower c.toNat ≤ 122 then some (lower c.toNat - 97 + 10)
  else none

/-- The digit loop of `strconv.ParseUint`, with `n` the `uint64` accumulator.
`cutoff` is the smallest number with `cutoff * base > maxUint64`. -/
def parseLoop (base maxVal cutoff : Nat) : List Char → Nat → Nat × Option NumError
  | [], n => (n, none)
  | c :: cs, n =>
    match digitVal c with
    | none => (0, some NumError.ErrSyntax)
    | some d =>
      if d ≥ base then (0, some NumError.ErrSyntax)
      else if n ≥ cutoff then (maxVal, some NumError.ErrRange)
      else
        let n0 := n * base % 2 ^ 64
        let n1 := (n0 + d) % 2 ^ 64
        if n1 < n0 ∨ n1 > maxVal then (maxVal, some NumError.ErrRange)
        else parseLoop base maxVal cutoff cs n1

/-- The function `strconv.ParseUint(s, base, bitSize)` for an explicit base
`2 ≤ base ≤ 36` and `1 ≤ bitSize ≤ 64` (the prefix-driven base 0 and the argument
errors are outside this embedding: the only caller passes base 16 and 64 bits). -/
def ParseUint (s : String) (base bitSize : Nat) : Nat × Option NumError :=
  if s = "" then (0, some NumError.ErrSyntax)
  else parseLoop base (2 ^ bitSize - 1) ((2 ^ 64 - 1) / base + 1) s.data 0

/-- The function `strconv.ParseInt(s, base, bitSize)` under the same restrictions as
`ParseUint`: an optional sign, the unsigned parse, and the range check against
`cutoff = 1 << (bitSize-1)`; a value out of range is clamped and reported with
`ErrRange`. -/
def ParseInt (s : String) (base bitSize : Nat) : Int × Option NumError :=
  if s = "" then (0, some NumError.ErrSyntax)
  else
    let neg := s.data.head? = some '-'
    let s1 : String :=
      if s.data.head? = some '+' ∨ s.data.head? = some '-' then String.mk s.data.tail else s
    match ParseUint s1 base bitSize with
    | (_, some NumError.ErrSyntax) => (0, some NumError.ErrSyntax)
    | (un, _) =>
      let cutoff := 2 ^ (bitSize - 1)
      if ¬ neg ∧ un ≥ cutoff then (((cutoff - 1 : Nat) : Int), some NumError.ErrRange)
      else if neg ∧ un > cutoff then (-((cutoff : Nat) : Int), some NumError.ErrRange)
      else (if neg then -((un : Nat) : Int) else ((un : Nat) : Int), none)

/-! ## `dsf.go`: the little-endian decoder -/

/-- The function `hex(i int) string`. -/
def hex (i : Int) : String :=
  let i64 := i
  let s := FormatInt i64
  if s.length = 1 then "0" ++ s else s

/-- The function `hex2int(hexStr string) int`: the error of `ParseInt` is dropped. -/
def hex2int (hexStr : String) : Int :=
  (ParseInt hexStr 16 64).1

/-- The loop of `lsb`: `for _, b := range n3 { s = hex(int(b)) + s }`. -/
def lsbString : List Byte → String → String
  | [], s => s
  | b :: bs, s => lsbString bs (hex (b.val : Int) ++ s)

/-- The function `lsb(n3 []byte) int`. -/
def lsb (n3 : List Byte) : Int :=
  let s := lsbString n3 ""
  let res := hex2int s
  res

/-! ## Values declared elsewhere in the package -/

/-- A Go `error` value: one built by `errors.New`, one of the two `io` sentinels
that `io.ReadFull` reports, or any other error a stream or decoder may return. -/
inductive GoError
  | errorString (msg : String)
  | EOF
  | ErrUnexpectedEOF
  | other (code : Nat)
  deriving DecidableEq, Repr

/-- The function `errors.New(text)`. -/
def errors.New (text : String) : GoError := GoError.errorString text

/-- Modelled from the spec: the type `Format` of the package (a tag dialect and
version), declared outside `dsf.go`. -/
structure Format where
  name : String
  deriving DecidableEq, Repr

/-- Modelled from the spec: the type `FileType` of the package (a container
identity), declared outside `dsf.go`. -/
structure FileType where
  name : String
  deriving DecidableEq, Repr

/-- Modelled from the spec: the constant `DSF` of type `FileType`, the fixed identity
of the container, declared outside `dsf.go`. -/
def DSF : FileType := ⟨"DSF"⟩

/-- Modelled from the spec: the type `Picture` of the package, an embedded image,
declared outside `dsf.go`. -/
structure Picture where
  Ext : String
  MIMEType : String
  Kind : String
  Description : String
  Data : List Byte
  deriving DecidableEq, Repr

/-- A value stored in the `map[string]interface{}` returned by `Raw()`. -/
inductive RawValue
  | text (s : String)
  | number (i : Int)
  | bytes (b : List Byte)
  | other (code : Nat)
  deriving DecidableEq, Repr

/-- Modelled from the spec: the interface `Metadata` of the package, declared outside
`dsf.go`: one field per method, holding what the method returns. `Picture` is a
pointer (`none` is `nil`); `Raw` is a map, given by its entries. -/
structure Metadata where
  Format : Format
  FileType : FileType
  Title : String
  Album : String
  Artist : String
  AlbumArtist : String
  Composer : String
  Year : Int
  Genre : String
  Track : Int × Int
  Disc : Int × Int
  Picture : Option Picture
  Lyrics : String
  Raw : List (String × RawValue)
  deriving DecidableEq, Repr

/-! ## `dsf.go`: the facade -/

/-- The type `metadataDSF`. The field `id3` holds an interface value and is `none`
when that value is `nil`, as it is right after `new(metadataDSF)`. -/
structure metadataDSF where
  id3 : Option Metadata
  fileSize : Int
  chunkSize : Int
  deriving DecidableEq, Repr

namespace metadataDSF

/-- The method `Format`. A method call on a `nil` interface value panics in Go; the
result `none` stands for that panic, here and in the accessors below. -/
def Format (m : metadataDSF) : Option Dsf.Format := m.id3.map (fun e => e.Format)

/-- The method `FileType`. -/
def FileType (_m : metadataDSF) : Dsf.FileType := DSF

/-- The method `Title`. -/
def Title (m : metadataDSF) : Option String := m.id3.map (fun e => e.Title)

/-- The method `Album`. -/
def Album (m : metadataDSF) : Option String := m.id3.map (fun e => e.Album)

/-- The method `Artist`. -/
def Artist (m : metadataDSF) : Option String := m.id3.map (fun e => e.Artist)

/-- The method `AlbumArtist`. -/
def AlbumArtist (m : metadataDSF) : Option String := m.id3.map (fun e => e.AlbumArtist)

/-- The method `Composer`. -/
def Composer (m : metadataDSF) : Option String := m.id3.map (fun e => e.Composer)

/-- The method `Year`. -/
def Year (m : metadataDSF) : Option Int := m.id3.map (fun e => e.Year)

/-- The method `Genre`. -/
def Genre (m : metadataDSF) : Option String := m.id3.map (fun e => e.Genre)

/-- The method `Track`. -/
def Track (m : metadataDSF) : Option (Int × Int) := m.id3.map (fun e => e.Track)

/-- The method `Disc`. -/
def Disc (m : metadataDSF) : Option (Int × Int) := m.id3.map (fun e => e.Disc)

/-- The method `Picture`. -/
def Picture (m : metadataDSF) : Option (Option Dsf.Picture) := m.id3.map (fun e => e.Picture)

/-- The method `Lyrics`. -/
def Lyrics (m : metadataDSF) : Option String := m.id3.map (fun e => e.Lyrics)

/-- The method `Raw`. -/
def Raw (m : metadataDSF) : Option (List (String × RawValue)) := m.id3.map (fun e => e.Raw)

end metadataDSF

/-! ## Streams -/

/-- An `io.ReadSeeker` with state `σ`. `ReadFull r n` is `io.ReadFull(r, b)` on a
fresh buffer `b` of `n` bytes: the filled buffer, or the error; `Seek r offset whence`
is the method `Seek`. Both return the state of the stream afterwards. Nothing is
assumed of either: any behaviour of a stream is an inhabitant. -/
structure ReadSeeker (σ : Type) where
  ReadFull : σ → Nat → Except GoError (List Byte) × σ
  Seek : σ → Int → Int → (Int × Option GoError) × σ

/-- Modelled from the spec: the embedded decoder `ReadID3v2Tags`, declared outside
`dsf.go`: on a stream it returns a `Metadata` (possibly `nil`) and an error
(possibly `nil`), and leaves the stream in some state. -/
abbrev Decoder (σ : Type) := σ → (Option Metadata × Option GoError) × σ

/-- One operation performed on the stream handed to `ReadDSFTags`. The decoder
invocation records the state of the stream at the moment of the call. -/
inductive Event (σ : Type)
  | read (n : Nat)
  | seek (offset : Int) (whence : Int)
  | decode (r : σ)
  deriving DecidableEq, Repr

/-- The stream together with the record of the operations performed on it so far. -/
structure World (σ : Type) where
  r : σ
  log : List (Event σ)
  deriving DecidableEq, Repr

/-- Modelled from the spec: the helper `readBytes(r, n)`, declared outside `dsf.go`:
it reads exactly `n` bytes and fails with the stream's error on a short read. -/
def readBytes {σ : Type} (rs : ReadSeeker σ) (w : World σ) (n : Nat) :
    Except GoError (List Byte) × World σ :=
  match rs.ReadFull w.r n with
  | (res, r1) => (res, ⟨r1, w.log ++ [Event.read n]⟩)

/-- The conversion `string(b)` of a byte slice. -/
def bytesToString (b : List Byte) : String := String.mk (b.map (fun x => Char.ofNat x.val))

/-- Modelled from the spec: the helper `readString(r, n)`, declared outside `dsf.go`:
`readBytes` followed by the conversion to a string. -/
def readString {σ : Type} (rs : ReadSeeker σ) (w : World σ) (n : Nat) :
    Except GoError String × World σ :=
  match readBytes rs w n with
  | (Except.error err, w1) => (Except.error err, w1)
  | (Except.ok b, w1) => (Except.ok (bytesToString b), w1)

/-- The call `r.Seek(offset, whence)`. -/
def Seek {σ : Type} (rs : ReadSeeker σ) (w : World σ) (offset whence : Int) :
    (Int × Option GoError) × World σ :=
  match rs.Seek w.r offset whence with
  | (res, r1) => (res, ⟨r1, w.log ++ [Event.seek offset whence]⟩)

/-- The call `ReadID3v2Tags(r)`. -/
def callDecoder {σ : Type} (ReadID3v2Tags : Decoder σ) (w : World σ) :
    (Option Metadata × Option GoError) × World σ :=
  match ReadID3v2Tags w.r with
  | (res, r1) => (res, ⟨r1, w.log ++ [Event.decode w.r]⟩)

/-! ## `dsf.go`: the reader -/

/-- The method `readDSFMetadata`: the receiver after the call, and the error. -/
def metadataDSF.readDSFMetadata {σ : Type} (ReadID3v2Tags : Decoder σ) (m : metadataDSF)
    (w : World σ) : (metadataDSF × Option GoError) × World σ :=
  match callDecoder ReadID3v2Tags w with
  | ((_, some err), w1) => ((m, some err), w1)
  | ((id3, none), w1) => (({ m with id3 := id3 }, none), w1)

/-- What a call of `ReadDSFTags` leaves behind: the two results (`Metadata`, `error`)
and the stream with the record of the operations performed on it. -/
structure Outcome (σ : Type) where
  m : Option metadataDSF
  err : Option GoError
  w : World σ
  deriving DecidableEq, Repr

/-- The function `ReadDSFTags(r io.ReadSeeker) (Metadata, error)`. -/
def ReadDSFTags {σ : Type} (rs : ReadSeeker σ) (ReadID3v2Tags : Decoder σ) (r : σ) :
    Outcome σ :=
  match readString rs ⟨r, []⟩ 4 with
  | (Except.error err, w1) => ⟨none, some err, w1⟩
  | (Except.ok dsd, w1) =>
    if dsd ≠ "DSD " then ⟨none, some (errors.New "expected 'DSD '"), w1⟩
    else
      match readBytes rs w1 8 with
      | (Except.error err, w2) => ⟨none, some err, w2⟩
      | (Except.ok n2, w2) =>
        let chunkSize := lsb n2
        match readBytes rs w2 8 with
        | (Except.error err, w3) => ⟨none, some err, w3⟩
        | (Except.ok n3, w3) =>
          let fileSize := lsb n3
          match readBytes rs w3 8 with
          | (Except.error err, w4) => ⟨none, some err, w4⟩
          | (Except.ok n4, w4) =>
            let id3Pointer := lsb n4
            match Seek rs w4 id3Pointer 0 with
            | ((_, some err), w5) => ⟨none, some err, w5⟩
            | ((_, none), w5) =>
              let m : metadataDSF := { id3 := none, fileSize := fileSize, chunkSize := chunkSize }
              match m.readDSFMetadata ReadID3v2Tags w5 with
              | ((_, some err), w6) => ⟨none, some err, w6⟩
              | ((m1, none), w6) => ⟨some m1, none, w6⟩

/-! ## An in-memory stream -/

/-- A stream over a fixed byte sequence with a cursor, after `bytes.Reader`:
`data` is the content and `pos` the offset of the next byte to read. -/
structure ByteStream where
  data : List Byte
  pos : Int
  deriving DecidableEq, Repr

/-- The function `io.ReadFull` on a `ByteStream` for a buffer of `n` bytes: `n` bytes
when that many remain; `io.EOF` when none remains; `io.ErrUnexpectedEOF`, with the
cursor at the end, when some but fewer than `n` remain. -/
def ByteStream.ReadFull (s : ByteStream) (n : Nat) : Except GoError (List Byte) × ByteStream :=
  let rest := s.data.drop s.pos.toNat
  if n = 0 then (Except.ok [], s)
  else if n ≤ rest.length then (Except.ok (rest.take n), { s with pos := s.pos + n })
  else if rest.length = 0 then (Except.error GoError.EOF, s)
  else (Except.error GoError.ErrUnexpectedEOF, { s with pos := s.pos + rest.length })

/-- The method `Seek` of a `ByteStream`, after `bytes.Reader.Seek`: the new position is
counted from the start (`whence = 0`), the cursor (`1`) or the end (`2`); a negative
position is an error, a position past the end is not. -/
def ByteStream.Seek (s : ByteStream) (offset whence : Int) : (Int × Option GoError) × ByteStream :=
  if whence ≠ 0 ∧ whence ≠ 1 ∧ whence ≠ 2 then
    ((0, some (errors.New "bytes.Reader.Seek: invalid whence")), s)
  else
    let abs := if whence = 0 then offset
      else if whence = 1 then s.pos + offset else (s.data.length : Int) + offset
    if abs < 0 then ((0, some (errors.New "bytes.Reader.Seek: negative position")), s)
    else ((abs, none), { s with pos := abs })

/-- The `ByteStream` operations as an `io.ReadSeeker`. -/
def byteStream : ReadSeeker ByteStream := ⟨ByteStream.ReadFull, ByteStream.Seek⟩

/-! ## Reference values used in the statements -/

/-- The little-endian value of a byte sequence, first byte least significant:
`leValue b = Σ b[i] × 256^i`. -/
def leValue : List Byte → Nat
  | [] => 0
  | b :: bs => b.val + 256 * leValue bs

/-- The `k` bytes of the little-endian encoding of `n`, least significant first. -/
def leBytes : Nat → Nat → List Byte
  | 0, _ => []
  | k + 1, n => ⟨n % 256, Nat.mod_lt n (by decide)⟩ :: leBytes k (n / 256)

/-- The four bytes of the signature `"DSD "`. -/
def signature : List Byte := [68, 83, 68, 32]

/-- A fixture: an embedded tag whose title is `"Test"`, whose own file type is not
`DSF`, and whose other fields are empty, zero or absent. -/
def sampleTag : Metadata :=
  { Format := ⟨"ID3v2.3"⟩, FileType := ⟨"MP3"⟩, Title := "Test", Album := "", Artist := "",
    AlbumArtist := "", Composer := "", Year := 0, Genre := "", Track := (0, 0), Disc := (0, 0),
    Picture := none, Lyrics := "", Raw := [("TIT2", RawValue.text "Test")] }

/-- A fixture: a decoder that succeeds with `sampleTag` and leaves the stream as it is. -/
def okDecoder : Decoder ByteStream := fun r => ((some sampleTag, none), r)

/-- A fixture: a decoder that fails with the error `GoError.other code`. -/
def failingDecoder (code : Nat) : Decoder ByteStream :=
  fun r => ((none, some (GoError.other code)), r)

/-- A fixture: the 28 header bytes with chunk size 28, file size 10000 and pointer 92. -/
def sampleHeader : List Byte := signature ++ leBytes 8 28 ++ leBytes 8 10000 ++ leBytes 8 92

/-- A fixture: a header whose three fields are all `0xFF` eight times. -/
def saturatedHeader : List Byte :=
  signature ++ List.replicate 24 (255 : Byte)

/-- The base-16 digits of the string that `lsb` builds from its input, most
significant first: the two digits of the last byte come first. -/
def hexNibbles : List Byte → List Nat
  | [] => []
  | b :: bs => hexNibbles bs ++ [b.val / 16, b.val % 16]

/-- The value of a sequence of base-16 digits read from the left, starting from `n`. -/
def nibbleValue (n : Nat) (ds : List Nat) : Nat := ds.foldl (fun a d => a * 16 + d) n

/-- A fixture: the in-memory stream with a `Seek` that always fails with the error
`GoError.other code` and leaves the stream as it is. -/
def brokenSeek (code : Nat) : ReadSeeker ByteStream :=
  ⟨ByteStream.ReadFull, fun s _ _ => ((0, some (GoError.other code)), s)⟩

/-- A fixture: the 28 header bytes with chunk size 28, file size 10000 and pointer 0. -/
def zeroPointerHeader : List Byte :=
  signature ++ leBytes 8 28 ++ leBytes 8 10000 ++ leBytes 8 0

/-- Whether a recorded operation is a seek. -/
def Event.isSeek {σ : Type} : Event σ → Bool
  | Event.seek _ _ => true
  | _ => false

/-- Whether a recorded operation is a call of the embedded decoder. -/
def Event.isDecode {σ : Type} : Event σ → Bool
  | Event.decode _ => true
  | _ => false

/-- The direct decode worded by the specification, a second definition to compare
`lsb` with: starting from zero and taking the bytes from the last to the first,
`acc = (acc << 8) | b` in unsigned 64-bit arithmetic. -/
def shiftDecode : List Byte → Nat
  | [] => 0
  | b :: bs => ((shiftDecode bs <<< 8) % 2 ^ 64) ||| b.val

/-- The signed reading of a 64-bit pattern: the conversion `int64(u)` of a `uint64`. -/
def asInt64 (u : Nat) : Int := if u < 2 ^ 63 then (u : Int) else (u : Int) - 2 ^ 64

/-- Whether a character is one of the sixteen lowercase hexadecimal digits. -/
def isLowerHexDigit (c : Char) : Bool := "0123456789abcdef".toList.contains c

/-! ## Auxiliary facts -/

theorem digitVal_digitAt : ∀ k : Fin 16, digitVal (digitAt k.val) = some k.val := by decide

set_option maxRecDepth 100000 in
theorem hex_byte : ∀ b : Byte,
    hex (b.val : Int) = String.mk [digitAt (b.val / 16), digitAt (b.val % 16)] := by decide

theorem lsbString_eq (bs : List Byte) (s : String) :
    lsbString bs s = String.mk ((hexNibbles bs).map digitAt ++ s.data) := by
  induction bs generalizing s with
  | nil => simp [lsbString, hexNibbles]
  | cons b bs ih =>
    rw [lsbString, ih, hex_byte]
    simp [hexNibbles]

theorem hexNibbles_lt (bs : List Byte) : ∀ d ∈ hexNibbles bs, d < 16 := by
  induction bs with
  | nil => simp [hexNibbles]
  | cons b bs ih =>
    intro d hd
    simp only [hexNibbles, List.mem_append, List.mem_cons, List.mem_singleton,
      List.not_mem_nil, or_false] at hd
    rcases hd with h | h | h
    · exact ih d h
    · have := b.isLt; omega
    · omega

theorem nibbleValue_append (n : Nat) (xs ys : List Nat) :
    nibbleValue n (xs ++ ys) = nibbleValue (nibbleValue n xs) ys := by
  simp [nibbleValue, List.foldl_append]

theorem nibbleValue_hexNibbles (bs : List Byte) : nibbleValue 0 (hexNibbles bs) = leValue bs := by
  induction bs with
  | nil => simp [hexNibbles, nibbleValue, leValue]
  | cons b bs ih =>
    rw [hexNibbles, nibbleValue_append, ih]
    simp only [nibbleValue, List.foldl_cons, List.foldl_nil, leValue]
    omega

theorem le_nibbleValue (n : Nat) (ds : List Nat) : n ≤ nibbleValue n ds := by
  induction ds generalizing n with
  | nil => simp [nibbleValue]
  | cons d ds ih =>
    have h := ih (n * 16 + d)
    simp only [nibbleValue, List.foldl_cons] at h ⊢
    omega

theorem parseLoop_nibbles (ds : List Nat) (n : Nat) (hds : ∀ d ∈ ds, d < 16)
    (hn : n < 2 ^ 64) :
    parseLoop 16 (2 ^ 64 - 1) ((2 ^ 64 - 1) / 16 + 1) (ds.map digitAt) n =
      if nibbleValue n ds < 2 ^ 64 then (nibbleValue n ds, none)
      else (2 ^ 64 - 1, some NumError.ErrRange) := by
  induction ds generalizing n with
  | nil =>
    simp only [List.map_nil, parseLoop, nibbleValue, List.foldl_nil]
    rw [if_pos hn]
  | cons d ds ih =>
    have hd : d < 16 := hds d (List.mem_cons_self _ _)
    have hdv : digitVal (digitAt d) = some d := digitVal_digitAt ⟨d, hd⟩
    have hstep : nibbleValue n (d :: ds) = nibbleValue (n * 16 + d) ds := by
      simp [nibbleValue]
    have hle := le_nibbleValue (n * 16 + d) ds
    have hcut : (2 ^ 64 - 1) / 16 + 1 = 2 ^ 60 := by norm_num
    simp only [List.map_cons, parseLoop, hdv, hstep]
    rw [if_neg (Nat.not_le.mpr hd)]
    by_cases hc : n ≥ (2 ^ 64 - 1) / 16 + 1
    · have hbig : ¬ nibbleValue (n * 16 + d) ds < 2 ^ 64 := by
        rw [hcut] at hc
        norm_num at hc ⊢
        omega
      rw [if_pos hc, if_neg hbig]
    · have hn1 : n * 16 + d < 2 ^ 64 := by
        rw [hcut] at hc
        norm_num at hc ⊢
        omega
      have hm0 : n * 16 % 2 ^ 64 = n * 16 := Nat.mod_eq_of_lt (by omega)
      have hm1 : (n * 16 + d) % 2 ^ 64 = n * 16 + d := Nat.mod_eq_of_lt hn1
      have hnot : ¬ (n * 16 + d < n * 16 ∨ n * 16 + d > 2 ^ 64 - 1) := by omega
      rw [if_neg hc, hm0, hm1, if_neg hnot]
      exact ih (n * 16 + d) (fun x hx => hds x (List.mem_cons_of_mem _ hx)) hn1

theorem mk_ne_empty (c : Char) (cs : List Char) : String.mk (c :: cs) ≠ "" := by
  intro h
  have h2 := congrArg String.data h
  simp at h2

theorem digitAt_not_sign : ∀ k : Fin 16, digitAt k.val ≠ '+' ∧ digitAt k.val ≠ '-' := by decide

theorem ParseUint_nibbles (d : Nat) (ds : List Nat) (hds : ∀ x ∈ d :: ds, x < 16) :
    ParseUint (String.mk ((d :: ds).map digitAt)) 16 64 =
      if nibbleValue 0 (d :: ds) < 2 ^ 64 then (nibbleValue 0 (d :: ds), none)
      else (2 ^ 64 - 1, some NumError.ErrRange) := by
  unfold ParseUint
  rw [if_neg (by rw [List.map_cons]; exact mk_ne_empty _ _)]
  exact parseLoop_nibbles (d :: ds) 0 hds (by norm_num)

theorem ParseInt_nibbles (d : Nat) (ds : List Nat) (hds : ∀ x ∈ d :: ds, x < 16) :
    ParseInt (String.mk ((d :: ds).map digitAt)) 16 64 =
      if nibbleValue 0 (d :: ds) < 2 ^ 63 then (((nibbleValue 0 (d :: ds) : Nat) : Int), none)
      else (((2 ^ 63 - 1 : Nat) : Int), some NumError.ErrRange) := by
  have hd : d < 16 := hds d (List.mem_cons_self _ _)
  have hsign := digitAt_not_sign ⟨d, hd⟩
  have h1 : digitAt d ≠ '+' := hsign.1
  have h2 : digitAt d ≠ '-' := hsign.2
  unfold ParseInt
  rw [if_neg (by rw [List.map_cons]; exact mk_ne_empty _ _)]
  simp only [List.map_cons, List.head?_cons, Option.some.injEq, h1, h2, or_self, if_false]
  have hU := ParseUint_nibbles d ds hds
  simp only [List.map_cons] at hU
  rw [hU]
  by_cases h64 : nibbleValue 0 (d :: ds) < 2 ^ 64
  · rw [if_pos h64]
    by_cases h63 : nibbleValue 0 (d :: ds) < 2 ^ 63
    · rw [if_pos h63]
      have h63b : nibbleValue 0 (d :: ds) < 9223372036854775808 := by norm_num at h63; exact h63
      simp [h63b]
    · rw [if_neg h63]
      have h63b : 9223372036854775808 ≤ nibbleValue 0 (d :: ds) := by norm_num at h63; exact h63
      simp [h63b]
  · rw [if_neg h64]
    have h63 : ¬ nibbleValue 0 (d :: ds) < 2 ^ 63 := by norm_num at h64 ⊢; omega
    rw [if_neg h63]
    simp

/-- The value computed by `lsb` on every input: the little-endian value, clamped to the
largest `int`. -/
theorem lsb_eq_min (bs : List Byte) : lsb bs = min (leValue bs : Int) (2 ^ 63 - 1) := by
  unfold lsb hex2int
  rw [lsbString_eq]
  cases hnib : hexNibbles bs with
  | nil =>
    have hv := nibbleValue_hexNibbles bs
    rw [hnib] at hv
    simp only [nibbleValue, List.foldl_nil] at hv
    rw [← hv]
    simp [ParseInt]
  | cons d ds =>
    have hds : ∀ x ∈ d :: ds, x < 16 := by
      rw [← hnib]; exact hexNibbles_lt bs
    have hv : nibbleValue 0 (d :: ds) = leValue bs := by
      rw [← hnib]; exact nibbleValue_hexNibbles bs
    dsimp only
    rw [List.append_nil, ParseInt_nibbles d ds hds, hv]
    by_cases h63 : leValue bs < 2 ^ 63
    · rw [if_pos h63]
      simp only
      rw [min_eq_left]
      have : (leValue bs : Int) < 2 ^ 63 := by exact_mod_cast h63
      omega
    · rw [if_neg h63]
      simp only
      rw [min_eq_right]
      · norm_num
      · have : (2 : Int) ^ 63 ≤ (leValue bs : Int) := by exact_mod_cast Nat.le_of_not_lt h63
        omega

/-! ### The reader on an arbitrary stream -/

theorem ReadDSFTags_run {σ : Type} (rs : ReadSeeker σ) (dec : Decoder σ)
    (r0 r1 r2 r3 r4 r5 : σ) (b1 n2 n3 n4 : List Byte) (p : Int)
    (h1 : rs.ReadFull r0 4 = (Except.ok b1, r1)) (hsig : bytesToString b1 = "DSD ")
    (h2 : rs.ReadFull r1 8 = (Except.ok n2, r2))
    (h3 : rs.ReadFull r2 8 = (Except.ok n3, r3))
    (h4 : rs.ReadFull r3 8 = (Except.ok n4, r4))
    (h5 : rs.Seek r4 (lsb n4) 0 = ((p, none), r5)) :
    ReadDSFTags rs dec r0 =
      ⟨if (dec r5).1.2 = none then some ⟨(dec r5).1.1, lsb n3, lsb n2⟩ else none,
        (dec r5).1.2,
        ⟨(dec r5).2, [Event.read 4, Event.read 8, Event.read 8, Event.read 8,
          Event.seek (lsb n4) 0, Event.decode r5]⟩⟩ := by
  rcases hdec : dec r5 with ⟨⟨md, _ | e⟩, r6⟩ <;>
    simp [ReadDSFTags, readString, readBytes, Seek, metadataDSF.readDSFMetadata, callDecoder,
      h1, hsig, h2, h3, h4, h5, hdec]

theorem ReadDSFTags_nil_iff {σ : Type} (rs : ReadSeeker σ) (dec : Decoder σ) (r0 : σ) :
    ((ReadDSFTags rs dec r0).m ≠ none ↔ (ReadDSFTags rs dec r0).err = none) := by
  unfold ReadDSFTags
  rcases h1 : readString rs ⟨r0, []⟩ 4 with ⟨_ | dsd, w1⟩
  · simp
  by_cases hs : dsd = "DSD "
  swap
  · simp [hs]
  rcases h2 : readBytes rs w1 8 with ⟨_ | n2, w2⟩
  · simp [hs, h2]
  rcases h3 : readBytes rs w2 8 with ⟨_ | n3, w3⟩
  · simp [hs, h2, h3]
  rcases h4 : readBytes rs w3 8 with ⟨_ | n4, w4⟩
  · simp [hs, h2, h3, h4]
  rcases h5 : Seek rs w4 (lsb n4) 0 with ⟨⟨_, _ | e⟩, w5⟩
  swap
  · simp [hs, h2, h3, h4, h5]
  rcases h6 : metadataDSF.readDSFMetadata dec ⟨none, lsb n3, lsb n2⟩ w5 with
    ⟨⟨m1, _ | e⟩, w6⟩ <;> simp [hs, h2, h3, h4, h5, h6]

/-! ### The in-memory stream -/

theorem ReadFull_at (data : List Byte) (p n : Nat) (hn : 0 < n) (h : p + n ≤ data.length) :
    ByteStream.ReadFull ⟨data, (p : Int)⟩ n =
      (Except.ok ((data.drop p).take n), ⟨data, ((p + n : Nat) : Int)⟩) := by
  have hlen : n ≤ (data.drop p).length := by rw [List.length_drop]; omega
  simp only [ByteStream.ReadFull, Int.toNat_ofNat]
  rw [if_neg (by omega), if_pos hlen]
  simp

theorem ReadFull_short (data : List Byte) (p n : Nat) (hn : 0 < n)
    (h : data.length < p + n) :
    ByteStream.ReadFull ⟨data, (p : Int)⟩ n =
      if data.length ≤ p then (Except.error GoError.EOF, ⟨data, (p : Int)⟩)
      else (Except.error GoError.ErrUnexpectedEOF, ⟨data, (data.length : Int)⟩) := by
  have hlen : ¬ n ≤ (data.drop p).length := by rw [List.length_drop]; omega
  simp only [ByteStream.ReadFull, Int.toNat_ofNat]
  rw [if_neg (by omega), if_neg hlen]
  by_cases hp : data.length ≤ p
  · rw [if_pos (by rw [List.length_drop]; omega), if_pos hp]
  · rw [if_neg (by rw [List.length_drop]; omega), if_neg hp]
    simp only [List.length_drop]
    congr 2
    omega

theorem lsb_nonneg (bs : List Byte) : 0 ≤ lsb bs := by
  rw [lsb_eq_min]
  exact le_min (Int.natCast_nonneg _) (by norm_num)

theorem Seek_start (s : ByteStream) (offset : Int) (h : 0 ≤ offset) :
    ByteStream.Seek s offset 0 = ((offset, none), ⟨s.data, offset⟩) := by
  simp [ByteStream.Seek, Int.not_lt.mpr h]

set_option maxRecDepth 100000 in
theorem ofNat_byte_toNat : ∀ x : Byte, (Char.ofNat x.val).toNat = x.val := by decide

theorem bytesToString_eq_iff (b : List Byte) : bytesToString b = "DSD " ↔ b = signature := by
  constructor
  · intro h
    have h1 : b.map (fun x => Char.ofNat x.val) = ['D', 'S', 'D', ' '] := congrArg String.data h
    have h2 := congrArg (List.map Char.toNat) h1
    simp only [List.map_map] at h2
    have h2b : List.map Char.toNat ['D', 'S', 'D', ' '] = [68, 83, 68, 32] := by decide
    have h3 : b.map (fun x : Byte => x.val) = [68, 83, 68, 32] := by
      rw [← h2b, ← h2]
      apply List.map_congr_left
      intro x _
      exact (ofNat_byte_toNat x).symm
    have h4 : b.map (fun x : Byte => x.val) = signature.map (fun x : Byte => x.val) := by
      rw [h3]; rfl
    exact List.map_injective_iff.mpr (fun x y hxy => Fin.ext hxy) h4
  · intro h
    subst h
    decide

theorem byteStream_run (data : List Byte) (dec : Decoder ByteStream)
    (hsig : data.take 4 = signature) (hlen : 28 ≤ data.length) :
    ReadDSFTags byteStream dec ⟨data, 0⟩ =
      ⟨if (dec ⟨data, lsb ((data.drop 20).take 8)⟩).1.2 = none then
          some ⟨(dec ⟨data, lsb ((data.drop 20).take 8)⟩).1.1, lsb ((data.drop 12).take 8),
            lsb ((data.drop 4).take 8)⟩
        else none,
        (dec ⟨data, lsb ((data.drop 20).take 8)⟩).1.2,
        ⟨(dec ⟨data, lsb ((data.drop 20).take 8)⟩).2,
          [Event.read 4, Event.read 8, Event.read 8, Event.read 8,
            Event.seek (lsb ((data.drop 20).take 8)) 0,
            Event.decode ⟨data, lsb ((data.drop 20).take 8)⟩]⟩⟩ := by
  have h1 : byteStream.ReadFull ⟨data, 0⟩ 4 = (Except.ok (data.take 4), ⟨data, 4⟩) := by
    simpa using ReadFull_at data 0 4 (by norm_num) (by omega)
  have h2 : byteStream.ReadFull ⟨data, 4⟩ 8 = (Except.ok ((data.drop 4).take 8), ⟨data, 12⟩) := by
    simpa using ReadFull_at data 4 8 (by norm_num) (by omega)
  have h3 : byteStream.ReadFull ⟨data, 12⟩ 8 =
      (Except.ok ((data.drop 12).take 8), ⟨data, 20⟩) := by
    simpa using ReadFull_at data 12 8 (by norm_num) (by omega)
  have h4 : byteStream.ReadFull ⟨data, 20⟩ 8 =
      (Except.ok ((data.drop 20).take 8), ⟨data, 28⟩) := by
    simpa using ReadFull_at data 20 8 (by norm_num) (by omega)
  have h5 : byteStream.Seek ⟨data, 28⟩ (lsb ((data.drop 20).take 8)) 0 =
      ((lsb ((data.drop 20).take 8), none), ⟨data, lsb ((data.drop 20).take 8)⟩) :=
    Seek_start _ _ (lsb_nonneg _)
  exact ReadDSFTags_run byteStream dec _ _ _ _ _ _ _ _ _ _ _ h1
    ((bytesToString_eq_iff _).mpr hsig) h2 h3 h4 h5

theorem leValue_leBytes (k n : Nat) : leValue (leBytes k n) = n % 256 ^ k := by
  induction k generalizing n with
  | zero => simp [leBytes, leValue, Nat.mod_one]
  | succ k ih =>
    simp only [leBytes, leValue, ih]
    rw [Nat.pow_succ', Nat.mod_mul]

theorem leValue_ofFn (n : Nat) (b : Fin n → Byte) :
    leValue (List.ofFn b) = ∑ i : Fin n, (b i).val * 256 ^ i.val := by
  induction n with
  | zero => simp [leValue]
  | succ n ih =>
    rw [List.ofFn_succ, leValue, ih, Fin.sum_univ_succ, Finset.mul_sum]
    simp only [Fin.val_zero, pow_zero, mul_one, Fin.val_succ]
    congr 1
    apply Finset.sum_congr rfl
    intro i _
    ring

/-! ## The facade -/

/-- C4: for every `metadataDSF` value, whatever embedded `Metadata` it holds (a `nil` one
included) and whatever file type that embedded object reports, `FileType()` returns the
fixed container identity `DSF`. -/
theorem FileType_eq_DSF (id3 : Option Metadata) (fileSize chunkSize : Int) :
    (metadataDSF.mk id3 fileSize chunkSize).FileType = DSF := rfl

/-- C5: for every `metadataDSF` value `m` holding the embedded `Metadata` `e`, each
accessor other than `FileType` returns exactly what the accessor of the same name of
`e` returns: both components of `Track` and `Disc`, an absent `Picture` as absent, and
`Format` forwarded like the rest. -/
theorem accessors_forward (m : metadataDSF) (e : Metadata) (h : m.id3 = some e) :
    m.Format = some e.Format ∧ m.Title = some e.Title ∧ m.Album = some e.Album ∧
    m.Artist = some e.Artist ∧ m.AlbumArtist = some e.AlbumArtist ∧
    m.Composer = some e.Composer ∧ m.Year = some e.Year ∧ m.Genre = some e.Genre ∧
    m.Track = some e.Track ∧ m.Disc = some e.Disc ∧ m.Picture = some e.Picture ∧
    m.Lyrics = some e.Lyrics ∧ m.Raw = some e.Raw := by
  simp [metadataDSF.Format, metadataDSF.Title, metadataDSF.Album, metadataDSF.Artist,
    metadataDSF.AlbumArtist, metadataDSF.Composer, metadataDSF.Year, metadataDSF.Genre,
    metadataDSF.Track, metadataDSF.Disc, metadataDSF.Picture, metadataDSF.Lyrics,
    metadataDSF.Raw, h]

/-- C5 at a concrete value: a `metadataDSF` wrapping `sampleTag` forwards every
accessor; the title is `"Test"`, the picture stays absent, the year stays zero. -/
theorem accessors_forward_witness :
    (metadataDSF.mk (some sampleTag) 10000 28).id3 = some sampleTag ∧
    ((metadataDSF.mk (some sampleTag) 10000 28).Format = some sampleTag.Format ∧
    (metadataDSF.mk (some sampleTag) 10000 28).Title = some sampleTag.Title ∧
    (metadataDSF.mk (some sampleTag) 10000 28).Album = some sampleTag.Album ∧
    (metadataDSF.mk (some sampleTag) 10000 28).Artist = some sampleTag.Artist ∧
    (metadataDSF.mk (some sampleTag) 10000 28).AlbumArtist = some sampleTag.AlbumArtist ∧
    (metadataDSF.mk (some sampleTag) 10000 28).Composer = some sampleTag.Composer ∧
    (metadataDSF.mk (some sampleTag) 10000 28).Year = some sampleTag.Year ∧
    (metadataDSF.mk (some sampleTag) 10000 28).Genre = some sampleTag.Genre ∧
    (metadataDSF.mk (some sampleTag) 10000 28).Track = some sampleTag.Track ∧
    (metadataDSF.mk (some sampleTag) 10000 28).Disc = some sampleTag.Disc ∧
    (metadataDSF.mk (some sampleTag) 10000 28).Picture = some sampleTag.Picture ∧
    (metadataDSF.mk (some sampleTag) 10000 28).Lyrics = some sampleTag.Lyrics ∧
    (metadataDSF.mk (some sampleTag) 10000 28).Raw = some sampleTag.Raw) :=
  ⟨rfl, accessors_forward (metadataDSF.mk (some sampleTag) 10000 28) sampleTag rfl⟩

/-! ## The little-endian decoder -/

/-- C7, the claim as stated fails: on eight bytes `0xFF` the result of `lsb` is not
`Σ b[i] × 256^i`. -/
theorem lsb_sum_counterexample :
    lsb (List.ofFn (fun _ : Fin 8 => (255 : Byte))) ≠
      ((∑ i : Fin 8, 255 * 256 ^ i.val : Nat) : Int) := by
  have hsum : (∑ i : Fin 8, 255 * 256 ^ i.val : Nat) = 2 ^ 64 - 1 := by
    simp only [Fin.sum_univ_eight]
    rfl
  have hlsb : lsb (List.ofFn (fun _ : Fin 8 => (255 : Byte))) = 2 ^ 63 - 1 := by decide
  rw [hlsb, hsum]
  norm_num

/-- C7 as amended: for every sequence of 8 bytes `b[0..7]`, `lsb(b)` equals
`Σ b[i] × 256^i` for `i = 0..7` clamped to `2^63 − 1`, the largest `int`; so it equals
the sum whenever the sum is below `2^63`. -/
theorem lsb_eq_sum_clamped (b : Fin 8 → Byte) :
    lsb (List.ofFn b) =
      min ((∑ i : Fin 8, (b i).val * 256 ^ i.val : Nat) : Int) (2 ^ 63 - 1) := by
  rw [lsb_eq_min, leValue_ofFn]

/-- C8, the claim as stated fails: on eight bytes `0xFF`, `lsb` does not return
`2^64 − 1`. -/
theorem lsb_all_ones_counterexample :
    lsb [255, 255, 255, 255, 255, 255, 255, 255] ≠ 2 ^ 64 - 1 := by decide

/-- C8 as amended: on the 8-byte input consisting of `0xFF` eight times, `lsb` returns
`2^63 − 1`, the largest `int`. -/
theorem lsb_all_ones : lsb [255, 255, 255, 255, 255, 255, 255, 255] = 2 ^ 63 - 1 := by decide

/-- C9, the claim as stated fails: `2^63` is representable in the 8-byte field, and
decoding its encoding does not give it back. -/
theorem lsb_roundtrip_counterexample :
    2 ^ 63 < 2 ^ 64 ∧ lsb (leBytes 8 (2 ^ 63)) ≠ ((2 ^ 63 : Nat) : Int) := by decide

/-- C9 as amended: for every integer `n` with `0 ≤ n < 2^63`, encoding `n` as 8
little-endian bytes and decoding those bytes with `lsb` recovers `n` exactly. -/
theorem lsb_roundtrip (n : Nat) (h : n < 2 ^ 63) : lsb (leBytes 8 n) = (n : Int) := by
  have h256 : n % 256 ^ 8 = n := Nat.mod_eq_of_lt (by norm_num at h ⊢; omega)
  rw [lsb_eq_min, leValue_leBytes, h256, min_eq_left]
  have : (n : Int) < 2 ^ 63 := by exact_mod_cast h
  omega

/-- C9 at a concrete value: `10000` survives the round trip. -/
theorem lsb_roundtrip_witness :
    10000 < 2 ^ 63 ∧ lsb (leBytes 8 10000) = ((10000 : Nat) : Int) :=
  ⟨by decide, lsb_roundtrip 10000 (by decide)⟩

/-! ## The reader -/

/-- C2: for every stream whose first 4 bytes differ from the signature `"DSD "`,
`ReadDSFTags` fails with the format error `expected 'DSD '` and returns no metadata
object; the stream is left as the 4-byte read left it, and that read is the only
operation performed: no further read, no seek, no call of the embedded decoder. On a
stream over a byte sequence read from its start, the cursor is then at offset 4 and
the content is untouched. -/
theorem ReadDSFTags_bad_signature :
    (∀ (σ : Type) (rs : ReadSeeker σ) (dec : Decoder σ) (r0 r1 : σ) (b1 : List Byte),
      rs.ReadFull r0 4 = (Except.ok b1, r1) → b1 ≠ signature →
        ReadDSFTags rs dec r0 =
          ⟨none, some (errors.New "expected 'DSD '"), ⟨r1, [Event.read 4]⟩⟩) ∧
    (∀ (data : List Byte) (dec : Decoder ByteStream),
      4 ≤ data.length → data.take 4 ≠ signature →
        ReadDSFTags byteStream dec ⟨data, 0⟩ =
          ⟨none, some (errors.New "expected 'DSD '"), ⟨⟨data, 4⟩, [Event.read 4]⟩⟩) := by
  have hgen : ∀ (σ : Type) (rs : ReadSeeker σ) (dec : Decoder σ) (r0 r1 : σ)
      (b1 : List Byte), rs.ReadFull r0 4 = (Except.ok b1, r1) → b1 ≠ signature →
        ReadDSFTags rs dec r0 =
          ⟨none, some (errors.New "expected 'DSD '"), ⟨r1, [Event.read 4]⟩⟩ := by
    intro σ rs dec r0 r1 b1 h1 hsig
    have hne : ¬ bytesToString b1 = "DSD " := fun h => hsig ((bytesToString_eq_iff _).mp h)
    simp [ReadDSFTags, readString, readBytes, h1, hne]
  refine ⟨hgen, ?_⟩
  intro data dec hlen hsig
  have h1 : byteStream.ReadFull ⟨data, 0⟩ 4 = (Except.ok (data.take 4), ⟨data, 4⟩) := by
    simpa using ReadFull_at data 0 4 (by norm_num) (by omega)
  exact hgen ByteStream byteStream dec _ _ _ h1 hsig

/-- C2 at a concrete stream: the five bytes `"DSD!"`, `5` are rejected after the first
read, whatever the decoder. -/
theorem ReadDSFTags_bad_signature_witness :
    (4 ≤ ([68, 83, 68, 33, 5] : List Byte).length ∧
      ([68, 83, 68, 33, 5] : List Byte).take 4 ≠ signature) ∧
    ReadDSFTags byteStream okDecoder ⟨[68, 83, 68, 33, 5], 0⟩ =
      ⟨none, some (errors.New "expected 'DSD '"),
        ⟨⟨[68, 83, 68, 33, 5], 4⟩, [Event.read 4]⟩⟩ :=
  ⟨⟨by decide, by decide⟩,
    ReadDSFTags_bad_signature.2 [68, 83, 68, 33, 5] okDecoder (by decide) (by decide)⟩

/-- C1, the claim as stated fails: on a header whose chunk-size bytes are `0xFF` eight
times, the chunk size stored on the returned `metadataDSF` is not the unsigned 64-bit
little-endian value of stream bytes 4–11. -/
theorem ReadDSFTags_header_counterexample :
    ∃ m, (ReadDSFTags byteStream okDecoder ⟨saturatedHeader, 0⟩).m = some m ∧
      m.chunkSize ≠ (leValue ((saturatedHeader.drop 4).take 8) : Int) :=
  ⟨⟨some sampleTag, 2 ^ 63 - 1, 2 ^ 63 - 1⟩, by decide, by decide⟩

/-- C1 as amended: for every stream whose first 4 bytes are `"DSD "` and that has at
least 24 further bytes, the header phase of `ReadDSFTags` does not fail: the four reads
are followed by the seek, issued from the start of the stream to the decoded pointer.
The three values decoded (chunk size, file size, pointer) equal the little-endian value
of stream bytes 4–11, 12–19 and 20–27 respectively, clamped to `2^63 − 1`; the chunk size
and file size stored on a returned `metadataDSF` are those values. -/
theorem ReadDSFTags_header (data : List Byte) (dec : Decoder ByteStream)
    (hsig : data.take 4 = signature) (hlen : 28 ≤ data.length) :
    (ReadDSFTags byteStream dec ⟨data, 0⟩).w.log.take 5 =
        [Event.read 4, Event.read 8, Event.read 8, Event.read 8,
          Event.seek (min (leValue ((data.drop 20).take 8) : Int) (2 ^ 63 - 1)) 0] ∧
    ∀ m, (ReadDSFTags byteStream dec ⟨data, 0⟩).m = some m →
      m.chunkSize = min (leValue ((data.drop 4).take 8) : Int) (2 ^ 63 - 1) ∧
      m.fileSize = min (leValue ((data.drop 12).take 8) : Int) (2 ^ 63 - 1) := by
  rw [byteStream_run data dec hsig hlen]
  refine ⟨by simp [lsb_eq_min], ?_⟩
  intro m hm
  simp only at hm
  split at hm
  · cases hm
    exact ⟨lsb_eq_min _, lsb_eq_min _⟩
  · cases hm

/-- C1 at a concrete stream: the header with chunk size 28, file size 10000 and
pointer 92 is read through to the seek at offset 92, and the stored sizes are 28 and
10000. -/
theorem ReadDSFTags_header_witness :
    (sampleHeader.take 4 = signature ∧ 28 ≤ sampleHeader.length) ∧
    ((ReadDSFTags byteStream okDecoder ⟨sampleHeader, 0⟩).w.log.take 5 =
        [Event.read 4, Event.read 8, Event.read 8, Event.read 8,
          Event.seek (min (leValue ((sampleHeader.drop 20).take 8) : Int) (2 ^ 63 - 1)) 0] ∧
    ∀ m, (ReadDSFTags byteStream okDecoder ⟨sampleHeader, 0⟩).m = some m →
      m.chunkSize = min (leValue ((sampleHeader.drop 4).take 8) : Int) (2 ^ 63 - 1) ∧
      m.fileSize = min (leValue ((sampleHeader.drop 12).take 8) : Int) (2 ^ 63 - 1)) :=
  ⟨⟨by decide, by decide⟩,
    ReadDSFTags_header sampleHeader okDecoder (by decide) (by decide)⟩

/-- C3, the claim as stated fails: on a header whose pointer bytes are `0xFF` eight
times the reads and the seek succeed, and the decoder is invoked with the cursor at an
offset other than the unsigned 64-bit little-endian value of header bytes 20–27. -/
theorem ReadDSFTags_cursor_counterexample :
    ∃ r, Event.decode r ∈ (ReadDSFTags byteStream okDecoder ⟨saturatedHeader, 0⟩).w.log ∧
      r.pos ≠ (leValue ((saturatedHeader.drop 20).take 8) : Int) :=
  ⟨⟨saturatedHeader, 2 ^ 63 - 1⟩, by decide, by decide⟩

/-- C3 as amended: on every stream on which the header reads and the seek succeed,
`ReadDSFTags` invokes the embedded decoder on the stream exactly as the seek left it;
so, whenever a successful `Seek(offset, 0)` leaves the cursor at `offset`, the cursor at
the moment of that call equals the decoded pointer, an absolute offset from the start of
the stream: the little-endian value of the bytes of the pointer field clamped to
`2^63 − 1`, which is that value itself whenever it is below `2^63`. On a stream over a
byte sequence with a valid 28-byte header the decoder is invoked and the cursor is then
the clamped little-endian value of header bytes 20–27. -/
theorem ReadDSFTags_cursor :
    (∀ (σ : Type) (rs : ReadSeeker σ) (dec : Decoder σ) (pos : σ → Int)
      (r0 r1 r2 r3 r4 r5 : σ) (b1 n2 n3 n4 : List Byte) (p : Int),
      rs.ReadFull r0 4 = (Except.ok b1, r1) → b1 = signature →
      rs.ReadFull r1 8 = (Except.ok n2, r2) →
      rs.ReadFull r2 8 = (Except.ok n3, r3) →
      rs.ReadFull r3 8 = (Except.ok n4, r4) →
      rs.Seek r4 (lsb n4) 0 = ((p, none), r5) →
      (∀ (r : σ) (offset q : Int) (r' : σ),
        rs.Seek r offset 0 = ((q, none), r') → pos r' = offset) →
        Event.decode r5 ∈ (ReadDSFTags rs dec r0).w.log ∧
        ∀ r, Event.decode r ∈ (ReadDSFTags rs dec r0).w.log →
          r = r5 ∧ pos r = min (leValue n4 : Int) (2 ^ 63 - 1)) ∧
    (∀ (data : List Byte) (dec : Decoder ByteStream),
      data.take 4 = signature → 28 ≤ data.length →
        (∃ r, Event.decode r ∈ (ReadDSFTags byteStream dec ⟨data, 0⟩).w.log) ∧
        ∀ r, Event.decode r ∈ (ReadDSFTags byteStream dec ⟨data, 0⟩).w.log →
          r.pos = min (leValue ((data.drop 20).take 8) : Int) (2 ^ 63 - 1)) := by
  constructor
  · intro σ rs dec pos r0 r1 r2 r3 r4 r5 b1 n2 n3 n4 p h1 hsig h2 h3 h4 h5 hpos
    rw [ReadDSFTags_run rs dec r0 r1 r2 r3 r4 r5 b1 n2 n3 n4 p h1
      ((bytesToString_eq_iff _).mpr hsig) h2 h3 h4 h5]
    constructor
    · simp
    · intro r hr
      simp only [List.mem_cons, List.mem_singleton, List.not_mem_nil, reduceCtorEq,
        false_or, or_false, Event.decode.injEq] at hr
      subst hr
      exact ⟨rfl, by rw [hpos r4 (lsb n4) p r h5, lsb_eq_min]⟩
  · intro data dec hsig hlen
    rw [byteStream_run data dec hsig hlen]
    constructor
    · exact ⟨⟨data, lsb ((data.drop 20).take 8)⟩, by simp⟩
    · intro r hr
      simp only [List.mem_cons, List.mem_singleton, List.not_mem_nil, reduceCtorEq,
        false_or, or_false, Event.decode.injEq] at hr
      rw [hr]
      exact lsb_eq_min _

/-- C3 at a concrete stream: with pointer 92 the decoder is invoked, with the cursor
at the clamped pointer. -/
theorem ReadDSFTags_cursor_witness :
    (sampleHeader.take 4 = signature ∧ 28 ≤ sampleHeader.length) ∧
    ((∃ r, Event.decode r ∈ (ReadDSFTags byteStream okDecoder ⟨sampleHeader, 0⟩).w.log) ∧
    ∀ r, Event.decode r ∈ (ReadDSFTags byteStream okDecoder ⟨sampleHeader, 0⟩).w.log →
      r.pos = min (leValue ((sampleHeader.drop 20).take 8) : Int) (2 ^ 63 - 1)) :=
  ⟨⟨by decide, by decide⟩,
    ReadDSFTags_cursor.2 sampleHeader okDecoder (by decide) (by decide)⟩

/-- C6: on every stream on which the four header reads succeed, the signature matches
and the seek to the decoded pointer succeeds, if the embedded decoder returns an error
`e`, then `ReadDSFTags` returns exactly `e` and a `nil` metadata object. -/
theorem ReadDSFTags_decoder_error {σ : Type} (rs : ReadSeeker σ) (dec : Decoder σ)
    (r0 r1 r2 r3 r4 r5 r6 : σ) (b1 n2 n3 n4 : List Byte) (p : Int)
    (md : Option Metadata) (e : GoError)
    (h1 : rs.ReadFull r0 4 = (Except.ok b1, r1)) (hsig : b1 = signature)
    (h2 : rs.ReadFull r1 8 = (Except.ok n2, r2))
    (h3 : rs.ReadFull r2 8 = (Except.ok n3, r3))
    (h4 : rs.ReadFull r3 8 = (Except.ok n4, r4))
    (h5 : rs.Seek r4 (lsb n4) 0 = ((p, none), r5))
    (hdec : dec r5 = ((md, some e), r6)) :
    (ReadDSFTags rs dec r0).err = some e ∧ (ReadDSFTags rs dec r0).m = none := by
  rw [ReadDSFTags_run rs dec r0 r1 r2 r3 r4 r5 b1 n2 n3 n4 p h1
    ((bytesToString_eq_iff _).mpr hsig) h2 h3 h4 h5, hdec]
  simp

/-- C6 at a concrete stream: on the sample header the reads and the seek to offset 92
succeed, the decoder fails with error 7, and that error is what `ReadDSFTags` returns. -/
theorem ReadDSFTags_decoder_error_witness :
    (byteStream.ReadFull ⟨sampleHeader, 0⟩ 4 = (Except.ok signature, ⟨sampleHeader, 4⟩) ∧
      byteStream.ReadFull ⟨sampleHeader, 4⟩ 8 =
        (Except.ok (leBytes 8 28), ⟨sampleHeader, 12⟩) ∧
      byteStream.ReadFull ⟨sampleHeader, 12⟩ 8 =
        (Except.ok (leBytes 8 10000), ⟨sampleHeader, 20⟩) ∧
      byteStream.ReadFull ⟨sampleHeader, 20⟩ 8 =
        (Except.ok (leBytes 8 92), ⟨sampleHeader, 28⟩) ∧
      byteStream.Seek ⟨sampleHeader, 28⟩ (lsb (leBytes 8 92)) 0 =
        ((92, none), ⟨sampleHeader, 92⟩) ∧
      failingDecoder 7 ⟨sampleHeader, 92⟩ =
        ((none, some (GoError.other 7)), ⟨sampleHeader, 92⟩)) ∧
    ((ReadDSFTags byteStream (failingDecoder 7) ⟨sampleHeader, 0⟩).err =
        some (GoError.other 7) ∧
      (ReadDSFTags byteStream (failingDecoder 7) ⟨sampleHeader, 0⟩).m = none) :=
  ⟨⟨rfl, rfl, rfl, rfl, by decide, rfl⟩,
    ReadDSFTags_decoder_error byteStream (failingDecoder 7)
      ⟨sampleHeader, 0⟩ ⟨sampleHeader, 4⟩ ⟨sampleHeader, 12⟩ ⟨sampleHeader, 20⟩
      ⟨sampleHeader, 28⟩ ⟨sampleHeader, 92⟩ ⟨sampleHeader, 92⟩
      signature (leBytes 8 28) (leBytes 8 10000) (leBytes 8 92) 92 none (GoError.other 7)
      rfl rfl rfl rfl rfl (by decide) rfl⟩

/-- C10: extraction is all-or-nothing. For every stream, whatever the stream and the
embedded decoder do, `ReadDSFTags` returns a non-nil metadata object exactly when it
returns a nil error. In particular, for every stream that starts with `"DSD "` and ends
before byte 28, it returns no metadata object and the error of the short read:
`io.EOF` when the stream ends where a field starts, `io.ErrUnexpectedEOF` otherwise. -/
theorem ReadDSFTags_all_or_nothing :
    (∀ (σ : Type) (rs : ReadSeeker σ) (dec : Decoder σ) (r0 : σ),
      ((ReadDSFTags rs dec r0).m ≠ none ↔ (ReadDSFTags rs dec r0).err = none)) ∧
    (∀ (data : List Byte) (dec : Decoder ByteStream),
      data.take 4 = signature → data.length < 28 →
        (ReadDSFTags byteStream dec ⟨data, 0⟩).m = none ∧
        (ReadDSFTags byteStream dec ⟨data, 0⟩).err =
          some (if data.length = 4 ∨ data.length = 12 ∨ data.length = 20 then GoError.EOF
            else GoError.ErrUnexpectedEOF)) := by
  refine ⟨fun σ rs dec r0 => ReadDSFTags_nil_iff rs dec r0, ?_⟩
  intro data dec hsig hlen
  have h4le : 4 ≤ data.length := by
    have h := congrArg List.length hsig
    simp only [List.length_take, signature, List.length_cons, List.length_nil] at h
    omega
  have hs : bytesToString (data.take 4) = "DSD " := (bytesToString_eq_iff _).mpr hsig
  have h1 : byteStream.ReadFull ⟨data, 0⟩ 4 = (Except.ok (data.take 4), ⟨data, 4⟩) := by
    simpa using ReadFull_at data 0 4 (by norm_num) (by omega)
  by_cases c1 : data.length < 12
  · have h2 := ReadFull_short data 4 8 (by norm_num) (by omega)
    have h2b : byteStream.ReadFull ⟨data, 4⟩ 8 = _ := h2
    by_cases c : data.length ≤ 4
    · have hc : data.length = 4 := by omega
      simp [ReadDSFTags, readString, readBytes, h1, hs, h2b, hc]
    · have hc : ¬ (data.length = 4 ∨ data.length = 12 ∨ data.length = 20) := by omega
      simp [ReadDSFTags, readString, readBytes, h1, hs, h2b, c, hc]
  have h2 : byteStream.ReadFull ⟨data, 4⟩ 8 = (Except.ok ((data.drop 4).take 8), ⟨data, 12⟩) := by
    simpa using ReadFull_at data 4 8 (by norm_num) (by omega)
  by_cases c2 : data.length < 20
  · have h3 := ReadFull_short data 12 8 (by norm_num) (by omega)
    have h3b : byteStream.ReadFull ⟨data, 12⟩ 8 = _ := h3
    by_cases c : data.length ≤ 12
    · have hc : data.length = 12 := by omega
      simp [ReadDSFTags, readString, readBytes, h1, hs, h2, h3b, hc]
    · have hc : ¬ (data.length = 4 ∨ data.length = 12 ∨ data.length = 20) := by omega
      simp [ReadDSFTags, readString, readBytes, h1, hs, h2, h3b, c, hc]
  have h3 : byteStream.ReadFull ⟨data, 12⟩ 8 =
      (Except.ok ((data.drop 12).take 8), ⟨data, 20⟩) := by
    simpa using ReadFull_at data 12 8 (by norm_num) (by omega)
  have h4 := ReadFull_short data 20 8 (by norm_num) (by omega)
  have h4b : byteStream.ReadFull ⟨data, 20⟩ 8 = _ := h4
  by_cases c : data.length ≤ 20
  · have hc : data.length = 20 := by omega
    simp [ReadDSFTags, readString, readBytes, h1, hs, h2, h3, h4b, hc]
  · have hc : ¬ (data.length = 4 ∨ data.length = 12 ∨ data.length = 20) := by omega
    simp [ReadDSFTags, readString, readBytes, h1, hs, h2, h3, h4b, c, hc]

/-- C10 at a concrete stream: the sample header cut after 27 bytes yields no metadata
object and `io.ErrUnexpectedEOF`. -/
theorem ReadDSFTags_all_or_nothing_witness :
    (ReadDSFTags byteStream okDecoder ⟨sampleHeader.take 27, 0⟩).m = none ∧
    (ReadDSFTags byteStream okDecoder ⟨sampleHeader.take 27, 0⟩).err =
      some (if (sampleHeader.take 27).length = 4 ∨ (sampleHeader.take 27).length = 12 ∨
          (sampleHeader.take 27).length = 20 then GoError.EOF
        else GoError.ErrUnexpectedEOF) :=
  ReadDSFTags_all_or_nothing.2 (sampleHeader.take 27) okDecoder (by decide) (by decide)

/-! ## The reader: seek and pointer -/

theorem ReadDSFTags_seek_failed {σ : Type} (rs : ReadSeeker σ) (dec : Decoder σ)
    (r0 r1 r2 r3 r4 r5 : σ) (b1 n2 n3 n4 : List Byte) (p : Int) (e : GoError)
    (h1 : rs.ReadFull r0 4 = (Except.ok b1, r1)) (hsig : b1 = signature)
    (h2 : rs.ReadFull r1 8 = (Except.ok n2, r2))
    (h3 : rs.ReadFull r2 8 = (Except.ok n3, r3))
    (h4 : rs.ReadFull r3 8 = (Except.ok n4, r4))
    (h5 : rs.Seek r4 (lsb n4) 0 = ((p, some e), r5)) :
    ReadDSFTags rs dec r0 =
      ⟨none, some e, ⟨r5, [Event.read 4, Event.read 8, Event.read 8, Event.read 8,
        Event.seek (lsb n4) 0]⟩⟩ := by
  have hs : bytesToString b1 = "DSD " := (bytesToString_eq_iff _).mpr hsig
  simp [ReadDSFTags, readString, readBytes, Seek, h1, hs, h2, h3, h4, h5]

/-- C11: on every stream with a valid header (the four reads succeed and the signature
matches), if the seek to the decoded pointer fails with error `e`, then `ReadDSFTags`
returns exactly `e` and no metadata object, the stream is left as the seek left it, and
the embedded decoder is never invoked: the operations performed are the four reads and
the seek. -/
theorem ReadDSFTags_seek_error {σ : Type} (rs : ReadSeeker σ) (dec : Decoder σ)
    (r0 r1 r2 r3 r4 r5 : σ) (b1 n2 n3 n4 : List Byte) (p : Int) (e : GoError)
    (h1 : rs.ReadFull r0 4 = (Except.ok b1, r1)) (hsig : b1 = signature)
    (h2 : rs.ReadFull r1 8 = (Except.ok n2, r2))
    (h3 : rs.ReadFull r2 8 = (Except.ok n3, r3))
    (h4 : rs.ReadFull r3 8 = (Except.ok n4, r4))
    (h5 : rs.Seek r4 (lsb n4) 0 = ((p, some e), r5)) :
    (ReadDSFTags rs dec r0).err = some e ∧ (ReadDSFTags rs dec r0).m = none ∧
    (ReadDSFTags rs dec r0).w = ⟨r5, [Event.read 4, Event.read 8, Event.read 8,
      Event.read 8, Event.seek (lsb n4) 0]⟩ ∧
    ∀ r, Event.decode r ∉ (ReadDSFTags rs dec r0).w.log := by
  rw [ReadDSFTags_seek_failed rs dec r0 r1 r2 r3 r4 r5 b1 n2 n3 n4 p e h1 hsig h2 h3 h4 h5]
  simp

/-- C11 at a concrete stream: on the sample header over a stream whose `Seek` fails with
error 3, that error is returned, and a decoder that would succeed is not invoked. -/
theorem ReadDSFTags_seek_error_witness :
    ((brokenSeek 3).ReadFull ⟨sampleHeader, 0⟩ 4 = (Except.ok signature, ⟨sampleHeader, 4⟩) ∧
      (brokenSeek 3).ReadFull ⟨sampleHeader, 4⟩ 8 =
        (Except.ok (leBytes 8 28), ⟨sampleHeader, 12⟩) ∧
      (brokenSeek 3).ReadFull ⟨sampleHeader, 12⟩ 8 =
        (Except.ok (leBytes 8 10000), ⟨sampleHeader, 20⟩) ∧
      (brokenSeek 3).ReadFull ⟨sampleHeader, 20⟩ 8 =
        (Except.ok (leBytes 8 92), ⟨sampleHeader, 28⟩) ∧
      (brokenSeek 3).Seek ⟨sampleHeader, 28⟩ (lsb (leBytes 8 92)) 0 =
        ((0, some (GoError.other 3)), ⟨sampleHeader, 28⟩)) ∧
    ((ReadDSFTags (brokenSeek 3) okDecoder ⟨sampleHeader, 0⟩).err = some (GoError.other 3) ∧
      (ReadDSFTags (brokenSeek 3) okDecoder ⟨sampleHeader, 0⟩).m = none ∧
      (ReadDSFTags (brokenSeek 3) okDecoder ⟨sampleHeader, 0⟩).w =
        ⟨⟨sampleHeader, 28⟩, [Event.read 4, Event.read 8, Event.read 8, Event.read 8,
          Event.seek (lsb (leBytes 8 92)) 0]⟩ ∧
      ∀ r, Event.decode r ∉ (ReadDSFTags (brokenSeek 3) okDecoder ⟨sampleHeader, 0⟩).w.log) :=
  ⟨⟨rfl, rfl, rfl, rfl, rfl⟩,
    ReadDSFTags_seek_error (brokenSeek 3) okDecoder
      ⟨sampleHeader, 0⟩ ⟨sampleHeader, 4⟩ ⟨sampleHeader, 12⟩ ⟨sampleHeader, 20⟩
      ⟨sampleHeader, 28⟩ ⟨sampleHeader, 28⟩
      signature (leBytes 8 28) (leBytes 8 10000) (leBytes 8 92) 0 (GoError.other 3)
      rfl rfl rfl rfl rfl rfl⟩

/-- C16: `ReadDSFTags` never special-cases the pointer value. On every stream with a
valid header, whatever the pointer field holds and whatever the seek answers,
`ReadDSFTags` performs exactly one seek, to the decoded pointer with whence 0. If that
seek succeeds it invokes the embedded decoder exactly once, on the stream as the seek
left it, and the error it returns is the decoder's; if the seek fails the decoder is
not invoked and the error returned is the seek's. No error of its own arises from the
pointer. -/
theorem ReadDSFTags_no_pointer_check {σ : Type} (rs : ReadSeeker σ) (dec : Decoder σ)
    (r0 r1 r2 r3 r4 r5 : σ) (b1 n2 n3 n4 : List Byte) (p : Int) (serr : Option GoError)
    (h1 : rs.ReadFull r0 4 = (Except.ok b1, r1)) (hsig : b1 = signature)
    (h2 : rs.ReadFull r1 8 = (Except.ok n2, r2))
    (h3 : rs.ReadFull r2 8 = (Except.ok n3, r3))
    (h4 : rs.ReadFull r3 8 = (Except.ok n4, r4))
    (h5 : rs.Seek r4 (lsb n4) 0 = ((p, serr), r5)) :
    (ReadDSFTags rs dec r0).w.log.filter Event.isSeek = [Event.seek (lsb n4) 0] ∧
    (serr = none →
      (ReadDSFTags rs dec r0).w.log.filter Event.isDecode = [Event.decode r5] ∧
      (ReadDSFTags rs dec r0).err = (dec r5).1.2) ∧
    (∀ e, serr = some e →
      (ReadDSFTags rs dec r0).w.log.filter Event.isDecode = [] ∧
      (ReadDSFTags rs dec r0).err = some e) := by
  cases serr with
  | none =>
    rw [ReadDSFTags_run rs dec r0 r1 r2 r3 r4 r5 b1 n2 n3 n4 p h1
      ((bytesToString_eq_iff _).mpr hsig) h2 h3 h4 h5]
    simp [Event.isSeek, Event.isDecode]
  | some e =>
    rw [ReadDSFTags_seek_failed rs dec r0 r1 r2 r3 r4 r5 b1 n2 n3 n4 p e h1 hsig h2 h3 h4 h5]
    simp [Event.isSeek, Event.isDecode]

/-- C16 at a concrete stream: with a pointer field of zero the only seek goes to
offset 0, and the decoder is invoked once, with the cursor at 0. -/
theorem ReadDSFTags_no_pointer_check_witness :
    (byteStream.ReadFull ⟨zeroPointerHeader, 0⟩ 4 =
        (Except.ok signature, ⟨zeroPointerHeader, 4⟩) ∧
      byteStream.ReadFull ⟨zeroPointerHeader, 4⟩ 8 =
        (Except.ok (leBytes 8 28), ⟨zeroPointerHeader, 12⟩) ∧
      byteStream.ReadFull ⟨zeroPointerHeader, 12⟩ 8 =
        (Except.ok (leBytes 8 10000), ⟨zeroPointerHeader, 20⟩) ∧
      byteStream.ReadFull ⟨zeroPointerHeader, 20⟩ 8 =
        (Except.ok (leBytes 8 0), ⟨zeroPointerHeader, 28⟩) ∧
      byteStream.Seek ⟨zeroPointerHeader, 28⟩ (lsb (leBytes 8 0)) 0 =
        ((0, none), ⟨zeroPointerHeader, 0⟩)) ∧
    ((ReadDSFTags byteStream okDecoder ⟨zeroPointerHeader, 0⟩).w.log.filter Event.isSeek =
        [Event.seek (lsb (leBytes 8 0)) 0] ∧
      ((none : Option GoError) = none →
        (ReadDSFTags byteStream okDecoder ⟨zeroPointerHeader, 0⟩).w.log.filter Event.isDecode =
          [Event.decode ⟨zeroPointerHeader, 0⟩] ∧
        (ReadDSFTags byteStream okDecoder ⟨zeroPointerHeader, 0⟩).err =
          (okDecoder ⟨zeroPointerHeader, 0⟩).1.2) ∧
      (∀ e, (none : Option GoError) = some e →
        (ReadDSFTags byteStream okDecoder ⟨zeroPointerHeader, 0⟩).w.log.filter Event.isDecode =
          [] ∧
        (ReadDSFTags byteStream okDecoder ⟨zeroPointerHeader, 0⟩).err = some e)) :=
  ⟨⟨rfl, rfl, rfl, rfl, by decide⟩,
    ReadDSFTags_no_pointer_check byteStream okDecoder
      ⟨zeroPointerHeader, 0⟩ ⟨zeroPointerHeader, 4⟩ ⟨zeroPointerHeader, 12⟩
      ⟨zeroPointerHeader, 20⟩ ⟨zeroPointerHeader, 28⟩ ⟨zeroPointerHeader, 0⟩
      signature (leBytes 8 28) (leBytes 8 10000) (leBytes 8 0) 0 none
      rfl rfl rfl rfl rfl (by decide)⟩

/-! ## The reader: end to end -/

theorem sampleHeader_fields (rest : List Byte) :
    (sampleHeader ++ rest).take 4 = signature ∧ 28 ≤ (sampleHeader ++ rest).length ∧
    lsb (((sampleHeader ++ rest).drop 4).take 8) = 28 ∧
    lsb (((sampleHeader ++ rest).drop 12).take 8) = 10000 ∧
    lsb (((sampleHeader ++ rest).drop 20).take 8) = 92 := by
  have hlen : sampleHeader.length = 28 := by decide
  have e1 : ((sampleHeader ++ rest).drop 4).take 8 = (sampleHeader.drop 4).take 8 := by
    rw [List.drop_append_of_le_length (by omega), List.take_append_of_le_length]
    simp only [List.length_drop]; omega
  have e2 : ((sampleHeader ++ rest).drop 12).take 8 = (sampleHeader.drop 12).take 8 := by
    rw [List.drop_append_of_le_length (by omega), List.take_append_of_le_length]
    simp only [List.length_drop]; omega
  have e3 : ((sampleHeader ++ rest).drop 20).take 8 = (sampleHeader.drop 20).take 8 := by
    rw [List.drop_append_of_le_length (by omega), List.take_append_of_le_length]
    simp only [List.length_drop]; omega
  refine ⟨?_, ?_, ?_, ?_, ?_⟩
  · rw [List.take_append_of_le_length (by omega)]
    decide
  · rw [List.length_append]; omega
  · rw [e1]; decide
  · rw [e2]; decide
  · rw [e3]; decide

/-- C12: end-to-end example. For the stream that consists of `"DSD "`, then 28, 10000
and 92 each as 8 little-endian bytes, followed by any content, and for every embedded
decoder that decodes the stream positioned at offset 92 successfully to a `Metadata`
whose `Title()` is `"Test"`, `ReadDSFTags` succeeds, its one seek goes to offset 92 from
the start, and the result has `Title() == "Test"` and `FileType() == DSF`, whatever the
file type of the embedded `Metadata` itself. -/
theorem ReadDSFTags_end_to_end (rest : List Byte) (dec : Decoder ByteStream)
    (e : Metadata) (r6 : ByteStream) (htitle : e.Title = "Test")
    (hdec : dec ⟨sampleHeader ++ rest, 92⟩ = ((some e, none), r6)) :
    (ReadDSFTags byteStream dec ⟨sampleHeader ++ rest, 0⟩).err = none ∧
    (ReadDSFTags byteStream dec ⟨sampleHeader ++ rest, 0⟩).w.log.filter Event.isSeek =
      [Event.seek 92 0] ∧
    ∃ m, (ReadDSFTags byteStream dec ⟨sampleHeader ++ rest, 0⟩).m = some m ∧
      m.Title = some "Test" ∧ m.FileType = DSF ∧
      m.id3 = some e ∧ m.chunkSize = 28 ∧ m.fileSize = 10000 := by
  obtain ⟨hsig, hlen, hc, hf, hp⟩ := sampleHeader_fields rest
  rw [byteStream_run _ dec hsig hlen, hc, hf, hp, hdec]
  refine ⟨rfl, by simp [Event.isSeek], ⟨some e, 10000, 28⟩, by simp, ?_, rfl, rfl, rfl, rfl⟩
  simp [metadataDSF.Title, htitle]

/-- C12 at a concrete stream: the sample header followed by 64 zero bytes and four
more bytes, with the decoder that returns `sampleTag`, whose own file type is `MP3`. -/
theorem ReadDSFTags_end_to_end_witness :
    (sampleTag.Title = "Test" ∧ sampleTag.FileType ≠ DSF ∧
      okDecoder ⟨sampleHeader ++ (List.replicate 64 0 ++ [73, 68, 51, 3]), 92⟩ =
        ((some sampleTag, none),
          ⟨sampleHeader ++ (List.replicate 64 0 ++ [73, 68, 51, 3]), 92⟩)) ∧
    ((ReadDSFTags byteStream okDecoder
        ⟨sampleHeader ++ (List.replicate 64 0 ++ [73, 68, 51, 3]), 0⟩).err = none ∧
    (ReadDSFTags byteStream okDecoder
        ⟨sampleHeader ++ (List.replicate 64 0 ++ [73, 68, 51, 3]), 0⟩).w.log.filter
      Event.isSeek = [Event.seek 92 0] ∧
    ∃ m, (ReadDSFTags byteStream okDecoder
        ⟨sampleHeader ++ (List.replicate 64 0 ++ [73, 68, 51, 3]), 0⟩).m = some m ∧
      m.Title = some "Test" ∧ m.FileType = DSF ∧
      m.id3 = some sampleTag ∧ m.chunkSize = 28 ∧ m.fileSize = 10000) :=
  ⟨⟨rfl, by decide, rfl⟩,
    ReadDSFTags_end_to_end (List.replicate 64 0 ++ [73, 68, 51, 3]) okDecoder sampleTag
      ⟨sampleHeader ++ (List.replicate 64 0 ++ [73, 68, 51, 3]), 92⟩ rfl rfl⟩

/-! ## The little-endian decoder: other lengths and other decoders -/

theorem leValue_lt (bs : List Byte) : leValue bs < 256 ^ bs.length := by
  induction bs with
  | nil => simp [leValue]
  | cons b bs ih =>
    have hb := b.isLt
    simp only [leValue, List.length_cons, pow_succ]
    omega

theorem shiftDecode_eq (bs : List Byte) : shiftDecode bs = leValue bs % 2 ^ 64 := by
  induction bs with
  | nil => simp [shiftDecode, leValue]
  | cons b bs ih =>
    have hb : b.val < 2 ^ 8 := b.isLt
    have hmul : (shiftDecode bs <<< 8) % 2 ^ 64 = 2 ^ 8 * (shiftDecode bs % 2 ^ 56) := by
      rw [Nat.shiftLeft_eq, Nat.mul_comm, show (2 : Nat) ^ 64 = 2 ^ 8 * 2 ^ 56 by norm_num,
        Nat.mul_mod_mul_left]
    rw [shiftDecode, hmul, ← Nat.mul_add_lt_is_or hb, ih, leValue]
    norm_num
    omega

theorem lsb_eq_of_lt (bs : List Byte) (h : leValue bs < 2 ^ 63) : lsb bs = (leValue bs : Int) := by
  rw [lsb_eq_min, min_eq_left]
  have : (leValue bs : Int) < 2 ^ 63 := by exact_mod_cast h
  omega

theorem lsb_eq_of_ge (bs : List Byte) (h : 2 ^ 63 ≤ leValue bs) : lsb bs = 2 ^ 63 - 1 := by
  rw [lsb_eq_min, min_eq_right]
  have : (2 : Int) ^ 63 ≤ (leValue bs : Int) := by exact_mod_cast h
  omega

/-- C13, the claim as stated fails: on the 8 bytes `00 00 00 00 00 00 00 80` the result
of `lsb` is neither the value of the shift/accumulate decode nor its signed reading. -/
theorem lsb_shiftDecode_counterexample :
    lsb [0, 0, 0, 0, 0, 0, 0, 128] ≠ (shiftDecode [0, 0, 0, 0, 0, 0, 0, 128] : Int) ∧
    lsb [0, 0, 0, 0, 0, 0, 0, 128] ≠ asInt64 (shiftDecode [0, 0, 0, 0, 0, 0, 0, 128]) := by
  decide

/-- C13 as amended: for every fixed 8-byte input, `lsb`, which builds a hexadecimal
string from the bytes and parses it, returns the value of the direct shift/accumulate
little-endian decode clamped to `2^63 − 1`; the two agree whenever the last byte is
below `0x80`. -/
theorem lsb_eq_shiftDecode_clamped (b : Fin 8 → Byte) :
    lsb (List.ofFn b) = min (shiftDecode (List.ofFn b) : Int) (2 ^ 63 - 1) ∧
    ((b 7).val < 128 → lsb (List.ofFn b) = (shiftDecode (List.ofFn b) : Int)) := by
  have hlt : leValue (List.ofFn b) < 2 ^ 64 := by
    have h := leValue_lt (List.ofFn b)
    rw [List.length_ofFn] at h
    norm_num at h ⊢
    exact h
  have hsd : shiftDecode (List.ofFn b) = leValue (List.ofFn b) := by
    rw [shiftDecode_eq, Nat.mod_eq_of_lt hlt]
  refine ⟨by rw [hsd, lsb_eq_min], ?_⟩
  intro h7
  rw [hsd]
  apply lsb_eq_of_lt
  have hl : List.ofFn b = [b 0, b 1, b 2, b 3, b 4, b 5, b 6, b 7] := rfl
  rw [hl]
  have h0 := (b 0).isLt
  have h1 := (b 1).isLt
  have h2 := (b 2).isLt
  have h3 := (b 3).isLt
  have h4 := (b 4).isLt
  have h5 := (b 5).isLt
  have h6 := (b 6).isLt
  simp only [leValue]
  norm_num
  omega

/-- C14, the claim as stated fails: the 9-byte input `00 × 8, 01` has the value `2^64`,
which does not fit the native integer, and `lsb` does not return its low-order 64 bits,
read unsigned or signed. -/
theorem lsb_truncation_counterexample :
    2 ^ 63 ≤ leValue [0, 0, 0, 0, 0, 0, 0, 0, 1] ∧
    lsb [0, 0, 0, 0, 0, 0, 0, 0, 1] ≠ ((leValue [0, 0, 0, 0, 0, 0, 0, 0, 1] % 2 ^ 64 : Nat) : Int) ∧
    lsb [0, 0, 0, 0, 0, 0, 0, 0, 1] ≠ asInt64 (leValue [0, 0, 0, 0, 0, 0, 0, 0, 1] % 2 ^ 64) := by
  decide

/-- C14 as amended: for every byte sequence, of any length, whose little-endian value
does not fit the native 64-bit signed integer (it is `2^63` or more; in particular
every sequence of more than 8 bytes with a non-zero byte beyond the eighth), `lsb`
returns `2^63 − 1`, the largest native integer. -/
theorem lsb_saturates (n : Nat) (b : Fin n → Byte)
    (h : 2 ^ 63 ≤ ∑ i : Fin n, (b i).val * 256 ^ i.val) :
    lsb (List.ofFn b) = 2 ^ 63 - 1 := by
  apply lsb_eq_of_ge
  rw [leValue_ofFn]
  exact h

/-- C14 at a concrete input: nine bytes, the ninth being `01`. -/
theorem lsb_saturates_witness :
    2 ^ 63 ≤ ∑ i : Fin 9, ((fun i : Fin 9 => if i.val = 8 then (1 : Byte) else 0) i).val *
      256 ^ i.val ∧
    lsb (List.ofFn (fun i : Fin 9 => if i.val = 8 then (1 : Byte) else 0)) = 2 ^ 63 - 1 :=
  ⟨by decide, lsb_saturates 9 (fun i : Fin 9 => if i.val = 8 then (1 : Byte) else 0)
    (by decide)⟩

/-- C15: `lsb` is generic over the input length. For every byte sequence `b` of any
length `N ≥ 0`, the empty one and those longer than 8 bytes with zero high bytes
included, whose little-endian value `Σ b[i] × 256^i` is below `2^63`, `lsb(b)` equals
that value; for example `lsb([0x01,0,0,0,0,0,0,0]) = 1`. -/
theorem lsb_generic (n : Nat) (b : Fin n → Byte)
    (h : ∑ i : Fin n, (b i).val * 256 ^ i.val < 2 ^ 63) :
    lsb (List.ofFn b) = ((∑ i : Fin n, (b i).val * 256 ^ i.val : Nat) : Int) ∧
    lsb [1, 0, 0, 0, 0, 0, 0, 0] = 1 := by
  refine ⟨?_, by decide⟩
  rw [← leValue_ofFn]
  apply lsb_eq_of_lt
  rw [leValue_ofFn]
  exact h

/-- C15 at a concrete input: ten bytes `34 12 00 … 00`, longer than the native width
with zero high bytes, decode to `0x1234`. -/
theorem lsb_generic_witness :
    ∑ i : Fin 10, ((fun i : Fin 10 => if i.val = 0 then (0x34 : Byte) else
      if i.val = 1 then 0x12 else 0) i).val * 256 ^ i.val < 2 ^ 63 ∧
    (lsb (List.ofFn (fun i : Fin 10 => if i.val = 0 then (0x34 : Byte) else
        if i.val = 1 then 0x12 else 0)) =
      ((∑ i : Fin 10, ((fun i : Fin 10 => if i.val = 0 then (0x34 : Byte) else
        if i.val = 1 then 0x12 else 0) i).val * 256 ^ i.val : Nat) : Int) ∧
    lsb [1, 0, 0, 0, 0, 0, 0, 0] = 1) :=
  ⟨by decide, lsb_generic 10 (fun i : Fin 10 => if i.val = 0 then (0x34 : Byte) else
    if i.val = 1 then 0x12 else 0) (by decide)⟩

theorem seek_event_offset {σ : Type} (rs : ReadSeeker σ) (dec : Decoder σ) (r0 : σ)
    (offset whence : Int)
    (hmem : Event.seek offset whence ∈ (ReadDSFTags rs dec r0).w.log) :
    ∃ n4 : List Byte, offset = lsb n4 ∧ whence = 0 := by
  simp only [ReadDSFTags, readString, readBytes, Seek, metadataDSF.readDSFMetadata,
    callDecoder] at hmem
  rcases h1 : rs.ReadFull r0 4 with ⟨_ | b1, r1⟩
  · simp [h1] at hmem
  by_cases hs : bytesToString b1 = "DSD "
  swap
  · simp [h1, hs] at hmem
  rcases h2 : rs.ReadFull r1 8 with ⟨_ | n2, r2⟩
  · simp [h1, hs, h2] at hmem
  rcases h3 : rs.ReadFull r2 8 with ⟨_ | n3, r3⟩
  · simp [h1, hs, h2, h3] at hmem
  rcases h4 : rs.ReadFull r3 8 with ⟨_ | n4, r4⟩
  · simp [h1, hs, h2, h3, h4] at hmem
  refine ⟨n4, ?_⟩
  rcases h5 : rs.Seek r4 (lsb n4) 0 with ⟨⟨q, _ | e⟩, r5⟩
  · rcases h6 : dec r5 with ⟨⟨md, _ | e⟩, r6⟩ <;>
      simpa [h1, hs, h2, h3, h4, h5, h6] using hmem
  · simpa [h1, hs, h2, h3, h4, h5] using hmem

/-- C17: `lsb` saturates and is never negative. For every byte sequence `b` of any
length, `lsb(b) = min(Σ b[i] × 256^i, 2^63 − 1)`, the range error of
`strconv.ParseInt` being dropped and its clamped result kept; hence
`0 ≤ lsb(b) ≤ 2^63 − 1`, and on every stream, whatever it and the decoder do, every seek
that `ReadDSFTags` performs has a non-negative offset. -/
theorem lsb_saturating :
    (∀ (n : Nat) (b : Fin n → Byte),
      lsb (List.ofFn b) = min ((∑ i : Fin n, (b i).val * 256 ^ i.val : Nat) : Int) (2 ^ 63 - 1) ∧
      0 ≤ lsb (List.ofFn b) ∧ lsb (List.ofFn b) ≤ 2 ^ 63 - 1) ∧
    (∀ (σ : Type) (rs : ReadSeeker σ) (dec : Decoder σ) (r0 : σ) (offset whence : Int),
      Event.seek offset whence ∈ (ReadDSFTags rs dec r0).w.log → 0 ≤ offset) := by
  constructor
  · intro n b
    refine ⟨by rw [lsb_eq_min, leValue_ofFn], lsb_nonneg _, ?_⟩
    rw [lsb_eq_min]
    exact min_le_right _ _
  · intro σ rs dec r0 offset whence hmem
    obtain ⟨n4, h, _⟩ := seek_event_offset rs dec r0 offset whence hmem
    rw [h]
    exact lsb_nonneg _

/-- C17 at concrete inputs: nine bytes `0xFF` decode to `2^63 − 1`, and the seek on the
header whose pointer bytes are all `0xFF` goes to a non-negative offset. -/
theorem lsb_saturating_witness :
    lsb (List.ofFn (fun _ : Fin 9 => (255 : Byte))) = 2 ^ 63 - 1 ∧
    (Event.seek (2 ^ 63 - 1) 0 ∈
        (ReadDSFTags byteStream okDecoder ⟨saturatedHeader, 0⟩).w.log ∧
      (0 : Int) ≤ 2 ^ 63 - 1) :=
  ⟨by
    have h := (lsb_saturating.1 9 (fun _ : Fin 9 => (255 : Byte))).1
    rw [h]
    decide,
    by decide,
    lsb_saturating.2 ByteStream byteStream okDecoder ⟨saturatedHeader, 0⟩ (2 ^ 63 - 1) 0
      (by decide)⟩

/-! ## The hexadecimal helpers -/

theorem digitAt_lowerHex : ∀ k : Fin 16, isLowerHexDigit (digitAt k.val) = true := by decide

theorem lsbString_snoc (bs : List Byte) (b : Byte) (s : String) :
    lsbString (bs ++ [b]) s = hex (b.val : Int) ++ lsbString bs s := by
  induction bs generalizing s with
  | nil => simp [lsbString]
  | cons a bs ih =>
    rw [List.cons_append, lsbString, lsbString]
    exact ih _

theorem hexNibbles_length (bs : List Byte) : (hexNibbles bs).length = 2 * bs.length := by
  induction bs with
  | nil => simp [hexNibbles]
  | cons b bs ih =>
    simp only [hexNibbles, List.length_append, List.length_cons, List.length_nil, ih]
    omega

set_option maxRecDepth 100000 in
theorem hex_roundtrip_byte : ∀ v : Byte, hex2int (hex (v.val : Int)) = (v.val : Int) := by
  decide

/-- C18: for every byte value `v` in `0..255`, `hex(v)` is a string of exactly two
lowercase hexadecimal digits, the digit of `v / 16` then the digit of `v % 16`, so
zero-padded on the left, and `hex2int(hex(v)) = v`; so the string `lsb` builds from `N`
bytes consists of exactly `2N` lowercase hexadecimal digits, and the digits of the last
input byte come first. -/
theorem hex_two_digits :
    (∀ v : Byte,
      (hex (v.val : Int)).length = 2 ∧
      (∀ c ∈ (hex (v.val : Int)).data, isLowerHexDigit c = true) ∧
      hex (v.val : Int) = String.mk [digitAt (v.val / 16), digitAt (v.val % 16)] ∧
      hex2int (hex (v.val : Int)) = (v.val : Int)) ∧
    (∀ bs : List Byte,
      (lsbString bs "").length = 2 * bs.length ∧
      (∀ c ∈ (lsbString bs "").data, isLowerHexDigit c = true) ∧
      ∀ b : Byte, lsbString (bs ++ [b]) "" = hex (b.val : Int) ++ lsbString bs "") := by
  constructor
  · intro v
    have hv := v.isLt
    have hq : v.val / 16 < 16 := by omega
    have hr : v.val % 16 < 16 := by omega
    refine ⟨?_, ?_, hex_byte v, hex_roundtrip_byte v⟩
    · rw [hex_byte]; rfl
    · intro c hc
      rw [hex_byte] at hc
      simp only [List.mem_cons, List.mem_singleton, List.not_mem_nil, or_false] at hc
      rcases hc with h | h
      · rw [h]; exact digitAt_lowerHex ⟨v.val / 16, hq⟩
      · rw [h]; exact digitAt_lowerHex ⟨v.val % 16, hr⟩
  · intro bs
    refine ⟨?_, ?_, fun b => lsbString_snoc bs b ""⟩
    · rw [lsbString_eq]
      simp [String.length, hexNibbles_length]
    · intro c hc
      rw [lsbString_eq] at hc
      simp only [List.mem_append, List.mem_map] at hc
      rcases hc with ⟨d, hd, rfl⟩ | hc
      · exact digitAt_lowerHex ⟨d, hexNibbles_lt bs d hd⟩
      · simp at hc

end Dsf

